import Mathlib

/-!
Shallow embedding of the skill discovery / confidence-scoring / streaming
orchestration core of the `fastapi-skills` repository, and verification of
its specification claims.

Source files embedded:
  * `src/skills/matcher.py`  (SkillMatcher: match_skill, _match_by_keywords,
    _match_by_semantic, _extract_keywords)
  * `src/skills/base.py`     (SkillResult, SkillContext, _load_references,
    DynamicPythonSkill.execute)
  * `src/skills/loader.py`   (SkillLoader._load_all / reload)
  * `src/skills/calculator/skill.py` (CalculatorSkill.execute)
  * `src/api.py`             (chat endpoint's `generate` orchestrator)

Scores are modelled over `ℚ`; the Python floats carry the same small decimal
constants (0.4, 0.6, 0.5, 0.2, 0.9, 0.1, 0.3) and the spec speaks of exact
values.  External collaborators (the OpenAI chat call, Python's `eval`,
the host regular-expression engine for the calculator's expression
extraction) are modelled as explicit outcome parameters; everything the
repository itself computes is translated directly.
-/

namespace FastapiSkills

/- Batteries marks the rational-number arithmetic `@[irreducible]`; restore
the default reducibility locally so that concrete score computations can be
settled by `decide`. -/
attribute [local semireducible] Rat.mul Rat.inv Rat.add Rat.sub


/-- The slice of a loaded skill that the matcher reads: `metadata.name`,
`metadata.description` and `get_full_content()` (the raw SKILL.md text). -/
structure Skill where
  name : String
  description : String
  fullContent : String
deriving DecidableEq, Repr

/-- Structure `SkillResult` from `src/skills/base.py`: success flag, content,
optional metadata mapping, optional error description.  Metadata values in
the source are strings for both shipped handlers. -/
structure SkillResult where
  success : Bool
  content : String
  metadata : Option (List (String × String))
  error : Option String
deriving DecidableEq, Repr

/-- Structure `SkillContext` from `src/skills/base.py` (the `variables` mapping is
never populated by the orchestrator and is omitted). -/
structure SkillContext where
  userMessage : String
  conversationHistory : List (String × String)
deriving DecidableEq, Repr

/-- Python `str.lower()` (ASCII case mapping, the one relevant to this
repository's texts), over the character list so that it evaluates by
kernel reduction. -/
def pyLower (s : String) : String :=
  String.mk (s.toList.map Char.toLower)

/-- Python `str.strip()` with no argument: drop whitespace from both ends. -/
def pyStrip (s : String) : String :=
  String.mk (((s.toList.dropWhile Char.isWhitespace).reverse.dropWhile
    Char.isWhitespace).reverse)

/-- Substring test: `pat in hay` on Python strings (over characters). -/
def strContains (hay pat : String) : Bool :=
  let h := hay.toList
  (List.range (h.length + 1)).any (fun i => pat.toList.isPrefixOf (h.drop i))

/-- Word character for Python's `\b` boundary (`re` default unicode `\w`):
ASCII alphanumerics, underscore, and CJK ideographs (the only non-ASCII
word characters occurring in this repository's texts). -/
def isWordChar (c : Char) : Bool :=
  c.isAlphanum || c = '_' || (0x4E00 ≤ c.toNat && c.toNat ≤ 0x9FFF)

/-- Maximal runs of word characters in a character list (accumulator holds
the current run reversed). -/
def wordRunsAux : List Char → List Char → List (List Char)
  | [], cur => if cur.isEmpty then [] else [cur.reverse]
  | c :: cs, cur =>
    if isWordChar c then wordRunsAux cs (c :: cur)
    else if cur.isEmpty then wordRunsAux cs []
    else cur.reverse :: wordRunsAux cs []

/-- Python `re.findall` of `[a-zA-Z]` runs of length at least 3 between
word boundaries, over the lowercased text: the maximal word-character runs consisting solely of ASCII letters, of length at least 3 (a run
touching a digit, underscore or CJK word character has no boundary inside
it, so it only matches when all of it is ASCII letters). -/
def englishWords (t : String) : List String :=
  ((wordRunsAux t.toList []).filter
      (fun r => 3 ≤ r.length && r.all Char.isAlpha)).map (fun r => String.mk r)

/-- The fixed `action_words` list of `SkillMatcher._extract_keywords`. -/
def actionWords : List String :=
  ["review", "search", "find", "install", "get", "use", "create",
   "generate", "execute", "run", "code", "test", "debug", "fix",
   "分析", "搜索", "查找", "安装", "获取", "使用", "创建", "生成",
   "执行", "运行", "代码", "测试", "调试", "修复", "审查"]

/-- Method `SkillMatcher._extract_keywords`: English tokens of length ≥ 3 plus the
action words occurring as substrings, deduplicated (`list(set(...))`). -/
def extractKeywords (text : String) : List String :=
  let t := pyLower text
  (englishWords t ++ actionWords.filter (fun w => strContains t w)).dedup

/-- One skill's entry of `SkillMatcher._match_by_keywords`: +0.5 for the
(case-insensitive) name substring, plus `min(matched * 0.2, 0.5)` over the
concatenation of the keywords extracted from the description and from the
full SKILL.md content, the total clamped to 1.0. -/
def lexicalScore (msg : String) (sk : Skill) : ℚ :=
  let m := pyLower msg
  let base : ℚ := if strContains m (pyLower sk.name) then 1/2 else 0
  let kws := extractKeywords sk.description ++ extractKeywords sk.fullContent
  let matched := (kws.filter (fun kw => strContains m kw)).length
  let score := base + (if 0 < matched then min ((matched : ℚ) * (1/5)) (1/2) else 0)
  min score 1

/-- Digit-string parser of Python `int()` (underscores allowed singly
between digits). -/
def parseDigits : Nat → List Char → Option Nat
  | acc, [] => some acc
  | acc, '_' :: c :: cs =>
    if c.isDigit then parseDigits (acc * 10 + (c.toNat - 48)) cs else none
  | _, ['_'] => none
  | acc, c :: cs =>
    if c.isDigit then parseDigits (acc * 10 + (c.toNat - 48)) cs else none

/-- Python `int(s)` on an ASCII reply: strip whitespace, optional sign, digits;
`none` models `ValueError`. -/
def pyParseInt (s : String) : Option Int :=
  match (pyStrip s).toList with
  | [] => none
  | '+' :: [] => none
  | '-' :: [] => none
  | '+' :: c :: cs =>
    if c.isDigit then (parseDigits (c.toNat - 48) cs).map Int.ofNat else none
  | '-' :: c :: cs =>
    if c.isDigit then (parseDigits (c.toNat - 48) cs).map (fun n => -(n : Int)) else none
  | c :: cs =>
    if c.isDigit then (parseDigits (c.toNat - 48) cs).map Int.ofNat else none

/-- Method `SkillMatcher._match_by_semantic`, as a function of the external call's
outcome (`.error e` = any transport exception, `.ok r` = the reply text):
score of the candidate at 0-based position `i` among `n` candidates.
A parsed ordinal `k` with `1 ≤ k ≤ n` gives 0.9 to position `k-1` and 0.1
to every other; `0`, a non-numeric reply, an out-of-range ordinal, or a
transport failure give 0.0 to every candidate. -/
def semanticScores (n : Nat) (reply : Except String String) (i : Nat) : ℚ :=
  match reply with
  | .error _ => 0
  | .ok r =>
    match pyParseInt (pyStrip r) with
    | none => 0
    | some k =>
      if k = 0 then 0
      else if 1 ≤ k ∧ k ≤ (n : Int) then (if (i : Int) = k - 1 then 9/10 else 1/10)
      else 0

/-- The `scores` table of `SkillMatcher.match_skill`, built in iteration
order: entry for each skill is `keyword_score * 0.4 + semantic_score * 0.6`,
with `i` the skill's 0-based position (Python dict keys are the distinct
skill objects; position stands for object identity). -/
def scoredAux (msg : String) (sem : Nat → ℚ) : Nat → List Skill → List (Skill × ℚ)
  | _, [] => []
  | i, s :: rest =>
    (s, lexicalScore msg s * (2/5) + sem i * (3/5)) :: scoredAux msg sem (i + 1) rest

/-- Combined score list for `match_skill`, in registration order. -/
def scoredList (skills : List Skill) (msg : String) (reply : Except String String) :
    List (Skill × ℚ) :=
  scoredAux msg (semanticScores skills.length reply) 0 skills

/-- One step of Python's `max(..., key=lambda x: x[1])`: keep the current
best unless the new item is strictly greater. -/
def maxStep (b y : α × ℚ) : α × ℚ :=
  if b.2 < y.2 then y else b

/-- Python `max(scores.items(), key=lambda x: x[1])`: first maximum wins. -/
def pickBest : List (α × ℚ) → Option (α × ℚ)
  | [] => none
  | x :: xs => some (xs.foldl maxStep x)

/-- Method `SkillMatcher.match_skill`: `None` on an empty registry; otherwise the
maximal combined-score entry, or `None` when it is strictly below 0.3. -/
def matchSkill (skills : List Skill) (msg : String) (reply : Except String String) :
    Option (Skill × ℚ) :=
  if skills.isEmpty then none
  else
    match pickBest (scoredList skills msg reply) with
    | none => none
    | some best => if best.2 < 3/10 then none else some best

/-- Method `_match_by_semantic` (and hence its external model call) is reached in
`match_skill` exactly when the registry is non-empty: the empty case
returns before either scorer runs. -/
def matchSkillIssuesModelCall (skills : List Skill) : Bool :=
  !skills.isEmpty

/-- The spec's reading of the lexical keyword count (claim C2): the number
of DISTINCT keywords over both extraction sources.  The source instead
concatenates the two separately-deduplicated lists, so this differs when a
keyword is extracted from both the description and the full content. -/
def specLexicalScoreDistinct (msg : String) (sk : Skill) : ℚ :=
  let m := pyLower msg
  let base : ℚ := if strContains m (pyLower sk.name) then 1/2 else 0
  let kws := (extractKeywords sk.description ++ extractKeywords sk.fullContent).dedup
  let matched := (kws.filter (fun kw => strContains m kw)).length
  min (base + min ((matched : ℚ) * (1/5)) (1/2)) 1

/-- The lexical formula with the per-source (multiplicity-respecting)
keyword count written without the `matched_keywords > 0` guard; the
amended claim C2 asserts `lexicalScore` equals this. -/
def specLexicalScorePerSource (msg : String) (sk : Skill) : ℚ :=
  let m := pyLower msg
  let base : ℚ := if strContains m (pyLower sk.name) then 1/2 else 0
  let kws := extractKeywords sk.description ++ extractKeywords sk.fullContent
  let matched := (kws.filter (fun kw => strContains m kw)).length
  min (base + min ((matched : ℚ) * (1/5)) (1/2)) 1

/-! ### Reference-document loading (`BaseSkill._load_references`) -/

/-- One file under a skill's `references` subdirectory: its path components
relative to that subdirectory (last component = file name) and its text. -/
structure RefFile where
  path : List String
  content : String
deriving DecidableEq, Repr

/-- File name of a reference file (its last path component). -/
def refFileName (f : RefFile) : String :=
  f.path.getLastD ""

/-- Glob `references_dir.glob` with pattern `**/*.md` keeps exactly the files whose name
ends in `.md` (fnmatch `*.md`, case-sensitive), at any depth. -/
def isMdFile (f : RefFile) : Bool :=
  ".md".toList.isSuffixOf (refFileName f).toList

/-- Method `BaseSkill._load_references`: walk the `references` tree and store each
matching document keyed by `str(path.relative_to(references_dir))`, content
verbatim. -/
def loadReferences (files : List RefFile) : List (String × String) :=
  (files.filter isMdFile).map (fun f => (String.intercalate "/" f.path, f.content))

/-- The spec's reading (claim C7): EVERY document under `references` is
stored, keyed by relative path, content verbatim. -/
def specLoadAllReferences (files : List RefFile) : List (String × String) :=
  files.map (fun f => (String.intercalate "/" f.path, f.content))

/-! ### Registry table and `SkillLoader.reload` -/

/-- Assignment `self._skills[name] = skill` on a Python dict: replace in place if the
key exists (keeping its position), else append. -/
def dictInsert (tbl : List (String × Skill)) (k : String) (v : Skill) :
    List (String × Skill) :=
  if tbl.any (fun p => p.1 == k) then
    tbl.map (fun p => if p.1 == k then (k, v) else p)
  else tbl ++ [(k, v)]

/-- Method `SkillLoader._load_all` over the discovered skills (in directory
iteration order), starting from the current table state: one
`self._skills[skill.metadata.name] = skill` per discovered skill. -/
def loadAll (disc : List Skill) : List (String × Skill) :=
  disc.foldl (fun t s => dictInsert t s.name s) []

/-- The registry tables observable while `SkillLoader.reload` runs:
`reload` is `self._skills.clear()` followed by `_load_all()`, so a reader
interleaved between its primitive steps sees the pre-reload table, the
cleared table, or the table after each single insertion — i.e. the load of
each prefix of the discovery list. -/
def reloadStates (pre : List (String × Skill)) (disc : List Skill) :
    List (List (String × Skill)) :=
  pre :: (List.range (disc.length + 1)).map (fun i => loadAll (disc.take i))

/-! ### Handler execution (`CalculatorSkill.execute`,
`DynamicPythonSkill.execute`) -/

/-- Method `CalculatorSkill._is_valid_expression`: only characters from
`'0123456789+-*/(). %'`. -/
def isValidExpression (expr : String) : Bool :=
  expr.toList.all (fun c => "0123456789+-*/(). %".toList.contains c)

/-- Method `CalculatorSkill.execute`.  Here `extract` is `_extract_expression` (a host
regular-expression search) and `evalExpr` is Python's `eval` together with
the numeric formatting of its value (`.error` = the eval raised), both
supplied as oracles; every branch, message and result shape is the
source's.  The outer `except` of the source is unreachable here because
the modelled body is total. -/
def calculatorExecute (extract : String → String)
    (evalExpr : String → Except String String) (ctx : SkillContext) : SkillResult :=
  let userMessage := pyStrip ctx.userMessage
  let expression := extract userMessage
  if expression = "" then
    ⟨false, "", none, some "无法从消息中提取数学表达式"⟩
  else if !(isValidExpression expression) then
    ⟨false, "", none, some ("表达式包含非法字符: " ++ expression)⟩
  else
    match evalExpr expression with
    | .error e => ⟨false, "", none, some ("计算错误: " ++ e)⟩
    | .ok resultStr =>
      ⟨true, expression ++ " = " ++ resultStr,
        some [("skill_name", "calculator"), ("expression", expression),
              ("result", resultStr)], none⟩

/-- Method `DynamicPythonSkill.execute` (the generic model-delegating adapter), as
a function of the chat-completion outcome: a reply becomes a success
carrying it verbatim; any exception becomes a failure with `str(e)` as the
error and empty content. -/
def dynamicExecute (skillName : String) (modelCall : Except String String) :
    SkillResult :=
  match modelCall with
  | .ok content => ⟨true, content, some [("skill_name", skillName)], none⟩
  | .error e => ⟨false, "", none, some e⟩

/-- The spec's SkillResult dichotomy (claim C9): success ⇒ non-empty
content and no error; failure ⇒ empty content and a populated error. -/
def resultDichotomy (r : SkillResult) : Prop :=
  (r.success = true → r.content ≠ "" ∧ r.error = none) ∧
  (r.success = false → r.content = "" ∧ r.error ≠ none)

/-- The amended dichotomy: success ⇒ no error (content may be empty for
the generic adapter); failure ⇒ empty content and an error present. -/
def resultDichotomyAmended (r : SkillResult) : Prop :=
  (r.success = true → r.error = none) ∧
  (r.success = false → r.content = "" ∧ r.error ≠ none)

/-! ### The streaming orchestrator (`generate` in `src/api.py`) -/

/-- One unit of the streamed response, one constructor per `yield` site of
`generate` (the constructors carry the data interpolated into the yielded
text). -/
inductive Fragment where
  | analyzing : Fragment
  | matched : String → ℚ → Fragment
  | executing : String → Fragment
  | succeeded : String → Fragment
  | failed : Option String → Fragment
  | thinking : Fragment
  | chunk : String → Fragment
deriving DecidableEq, Repr

/-- Fragment predicate: is this the `yield "❌ 执行失败: ..."` site? -/
def isFailedFragment : Fragment → Bool
  | .failed _ => true
  | _ => false

/-- Expression `messages[-1]["content"] if messages else ""`. -/
def lastUserMessage (messages : List (String × String)) : String :=
  match messages.getLast? with
  | some m => m.2
  | none => ""

/-- One step of the stage-4 streaming loop, `if
chunk.choices[0].delta.content: yield ...` — `none` models a `None` delta,
and falsy (empty) deltas are skipped. -/
def deltaFragment : Option String → Option Fragment
  | some s => if s = "" then none else some (Fragment.chunk s)
  | none => none

/-- Stage-4 streaming loop over all arriving deltas, preserving order. -/
def streamFragments (chunks : List (Option String)) : List Fragment :=
  chunks.filterMap deltaFragment

/-- The matched-skill stage of `generate`: the matched and executing
progress fragments, then `await skill.execute(context)` (whose outcome is
`outcome`): a returned success yields the succeeded fragment with the
result content, a returned failure yields the failed fragment with the
error; an exception escaping `execute` ends the generator (second
component). -/
def executeStage (skill : Skill) (confidence : ℚ)
    (outcome : Except String SkillResult) : List Fragment × Option String :=
  let head := [Fragment.analyzing, Fragment.matched skill.name confidence,
               Fragment.executing skill.name]
  match outcome with
  | .error e => (head, some e)
  | .ok result =>
    if result.success then (head ++ [Fragment.succeeded result.content], none)
    else (head ++ [Fragment.failed result.error], none)

/-- The `generate` orchestrator of `src/api.py`, as a function of the
registry snapshot, the semantic call outcome, the bound handlers'
`execute` (`.error` = the coroutine raised), and the fallback stream.
Result: the emitted fragments and, second, the uncaught exception that
terminated the generator (if any) — the source has no try/except around
`await skill.execute(context)`. -/
def generate (enableSkills : Bool) (messages : List (String × String))
    (skills : List Skill) (reply : Except String String)
    (execute : Skill → SkillContext → Except String SkillResult)
    (chunks : List (Option String)) : List Fragment × Option String :=
  let userMessage := lastUserMessage messages
  if enableSkills && !(pyStrip userMessage == "") then
    match matchSkill skills userMessage reply with
    | some (skill, confidence) =>
      executeStage skill confidence (execute skill ⟨userMessage, messages⟩)
    | none => (Fragment.analyzing :: Fragment.thinking :: streamFragments chunks, none)
  else
    (Fragment.thinking :: streamFragments chunks, none)

/-! ### Concrete instances used by witnesses and counterexamples -/

/-- A small skill used in witnesses: name `calc`, description
`add numbers`, empty SKILL.md body. -/
def calcSkill : Skill :=
  ⟨"calc", "add numbers", ""⟩

/-- A skill whose description and SKILL.md body share a keyword. -/
def mathSkill : Skill :=
  ⟨"calc", "math", "math"⟩


/-!
## Theorems

Helper lemmas first, then one theorem (plus witness / counterexample) per
claim.
-/


variable {α : Type}

lemma maxStep_left_le (b y : α × ℚ) : b.2 ≤ (maxStep b y).2 := by
  unfold maxStep
  split
  · exact le_of_lt (by assumption)
  · exact le_refl _

lemma maxStep_right_le (b y : α × ℚ) : y.2 ≤ (maxStep b y).2 := by
  unfold maxStep
  split
  · exact le_refl _
  · exact le_of_not_lt (by assumption)

lemma foldl_maxStep_spec (xs : List (α × ℚ)) : ∀ x : α × ℚ,
    ∃ i, (x :: xs).get? i = some (xs.foldl maxStep x) ∧
      (∀ j c, (x :: xs).get? j = some c → c.2 ≤ (xs.foldl maxStep x).2) ∧
      (∀ j c, j < i → (x :: xs).get? j = some c → c.2 < (xs.foldl maxStep x).2) := by
  induction xs with
  | nil =>
    intro x
    refine ⟨0, rfl, ?_, ?_⟩
    · intro j c hj
      match j, hj with
      | 0, hj =>
        cases hj
        exact le_refl _
      | Nat.succ k, hj => simp [List.get?] at hj
    · intro j c hjlt hj
      exact absurd hjlt (by omega)
  | cons z zs ih =>
    intro x
    have hfold : (z :: zs).foldl maxStep x = zs.foldl maxStep (maxStep x z) := rfl
    obtain ⟨i', hget', hmax', hstrict'⟩ := ih (maxStep x z)
    rw [hfold]
    set R := zs.foldl maxStep (maxStep x z) with hR
    have hxR : x.2 ≤ R.2 :=
      le_trans (maxStep_left_le x z) (hmax' 0 (maxStep x z) rfl)
    have hzR : z.2 ≤ R.2 :=
      le_trans (maxStep_right_le x z) (hmax' 0 (maxStep x z) rfl)
    have hmaxBig : ∀ j c, (x :: z :: zs).get? j = some c → c.2 ≤ R.2 := by
      intro j c hj
      match j, hj with
      | 0, hj =>
        cases hj
        exact hxR
      | 1, hj =>
        cases hj
        exact hzR
      | Nat.succ (Nat.succ k), hj => exact hmax' (k + 1) c hj
    match i', hget' with
    | 0, hget' =>
      have hRhead : maxStep x z = R := by
        have h2 := hget'
        simp only [List.get?] at h2
        exact Option.some.inj h2
      by_cases hzx : x.2 < z.2
      · have hz : z = R := by rw [← hRhead]; unfold maxStep; simp [hzx]
        refine ⟨1, ?_, hmaxBig, ?_⟩
        · simpa using congrArg some hz
        · intro j c hjlt hj
          match j, hjlt, hj with
          | 0, _, hj =>
            cases hj
            rw [← hz]
            exact hzx
          | Nat.succ k, hjlt, _ => exact absurd hjlt (by omega)
      · have hx : x = R := by rw [← hRhead]; unfold maxStep; simp [hzx]
        refine ⟨0, ?_, hmaxBig, ?_⟩
        · simpa using congrArg some hx
        · intro j c hjlt hj
          exact absurd hjlt (by omega)
    | Nat.succ k, hget' =>
      have hgetBig : (x :: z :: zs).get? (k + 2) = some R := hget'
      have hx' : (maxStep x z).2 < R.2 := hstrict' 0 (maxStep x z) (by omega) rfl
      refine ⟨k + 2, hgetBig, hmaxBig, ?_⟩
      intro j c hjlt hj
      match j, hj with
      | 0, hj =>
        cases hj
        exact lt_of_le_of_lt (maxStep_left_le x z) hx'
      | 1, hj =>
        cases hj
        exact lt_of_le_of_lt (maxStep_right_le x z) hx'
      | Nat.succ (Nat.succ m), hj => exact hstrict' (m + 1) c (by omega) hj

lemma pickBest_spec (l : List (α × ℚ)) (h : l ≠ []) :
    ∃ i b, l.get? i = some b ∧ pickBest l = some b ∧
      (∀ j c, l.get? j = some c → c.2 ≤ b.2) ∧
      (∀ j c, j < i → l.get? j = some c → c.2 < b.2) := by
  match l, h with
  | x :: xs, _ =>
    obtain ⟨i, hget, hmax, hstrict⟩ := foldl_maxStep_spec xs x
    exact ⟨i, xs.foldl maxStep x, hget, rfl, hmax, hstrict⟩


lemma scoredAux_get? (msg : String) (sem : Nat → ℚ) (l : List Skill) :
    ∀ (i j : Nat), (scoredAux msg sem i l).get? j =
      (l.get? j).map (fun s => (s, lexicalScore msg s * (2/5) + sem (i + j) * (3/5))) := by
  induction l with
  | nil => intro i j; simp [scoredAux]
  | cons s rest ih =>
    intro i j
    cases j with
    | zero => simp [scoredAux, List.get?]
    | succ k =>
      have h := ih (i + 1) k
      simp only [scoredAux, List.get?]
      rw [h]
      have harith : i + 1 + k = i + (k + 1) := by omega
      rw [harith]

lemma scoredList_get? (skills : List Skill) (msg : String)
    (reply : Except String String) (j : Nat) :
    (scoredList skills msg reply).get? j =
      (skills.get? j).map (fun s =>
        (s, lexicalScore msg s * (2/5) + semanticScores skills.length reply j * (3/5))) := by
  have h := scoredAux_get? msg (semanticScores skills.length reply) skills 0 j
  simpa [scoredList] using h

lemma scoredAux_ne_nil (msg : String) (sem : Nat → ℚ) (i : Nat) (s : Skill)
    (rest : List Skill) : scoredAux msg sem i (s :: rest) ≠ [] := by
  simp [scoredAux]

lemma scoredList_ne_nil (skills : List Skill) (msg : String)
    (reply : Except String String) (h : skills ≠ []) :
    scoredList skills msg reply ≠ [] := by
  match skills, h with
  | s :: rest, _ => exact scoredAux_ne_nil msg _ 0 s rest

lemma matchSkill_eq_of_pickBest (skills : List Skill) (msg : String)
    (reply : Except String String) (h : skills ≠ []) (b : Skill × ℚ)
    (hb : pickBest (scoredList skills msg reply) = some b) :
    matchSkill skills msg reply = if b.2 < 3/10 then none else some b := by
  unfold matchSkill
  rw [if_neg (by simpa [List.isEmpty_iff] using h), hb]

/-- C1: over a non-empty registry, `match_skill` scores every candidate as
`0.4 * lexical + 0.6 * model_assisted`, its outcome is `None` exactly when
every combined score is strictly below 0.3 (so a maximum of exactly 0.30 is
a match), and a returned match carries a maximal combined score clearing
the threshold. -/
theorem matchSkill_weighted_max_threshold (skills : List Skill) (msg : String)
    (reply : Except String String) (h : skills ≠ []) :
    (∀ j c, (scoredList skills msg reply).get? j = some c →
      ∃ s, skills.get? j = some s ∧
        c = (s, lexicalScore msg s * (2/5) + semanticScores skills.length reply j * (3/5))) ∧
    (matchSkill skills msg reply = none ↔
      ∀ j c, (scoredList skills msg reply).get? j = some c → c.2 < 3/10) ∧
    (∀ s v, matchSkill skills msg reply = some (s, v) →
      3/10 ≤ v ∧ (∃ j, (scoredList skills msg reply).get? j = some (s, v)) ∧
        ∀ j c, (scoredList skills msg reply).get? j = some c → c.2 ≤ v) := by
  obtain ⟨i, b, hget, hpick, hmax, hstrict⟩ :=
    pickBest_spec (scoredList skills msg reply) (scoredList_ne_nil skills msg reply h)
  have hred := matchSkill_eq_of_pickBest skills msg reply h b hpick
  refine ⟨?_, ?_, ?_⟩
  · intro j c hj
    rw [scoredList_get? skills msg reply j] at hj
    match hs : skills.get? j with
    | some s =>
      rw [hs] at hj
      simp only [Option.map_some'] at hj
      exact ⟨s, rfl, (Option.some.inj hj).symm⟩
    | none => rw [hs] at hj; simp at hj
  · constructor
    · intro hnone j c hj
      rw [hred] at hnone
      by_cases hb : b.2 < 3/10
      · exact lt_of_le_of_lt (hmax j c hj) hb
      · rw [if_neg hb] at hnone; cases hnone
    · intro hall
      rw [hred, if_pos (hall i b hget)]
  · intro s v hsome
    rw [hred] at hsome
    by_cases hb : b.2 < 3/10
    · rw [if_pos hb] at hsome; cases hsome
    · rw [if_neg hb] at hsome
      have hbv : b = (s, v) := Option.some.inj hsome
      subst hbv
      exact ⟨le_of_not_lt hb, ⟨i, hget⟩, hmax⟩

/-- Witness for C1 at a concrete input: one skill named `calc` with
description `add numbers`, message `calc add numbers`, failed model call;
the lexical score is 0.9 and the combined score 0.36, which clears the
threshold. -/
theorem matchSkill_weighted_max_threshold_witness :
    ([calcSkill] ≠ ([] : List Skill)) ∧
    ((∀ j c, (scoredList [calcSkill] "calc add numbers" (.error "boom")).get? j = some c →
      ∃ s, [calcSkill].get? j = some s ∧
        c = (s, lexicalScore "calc add numbers" s * (2/5) +
              semanticScores [calcSkill].length (.error "boom") j * (3/5))) ∧
    (matchSkill [calcSkill] "calc add numbers" (.error "boom") = none ↔
      ∀ j c, (scoredList [calcSkill] "calc add numbers" (.error "boom")).get? j = some c →
        c.2 < 3/10) ∧
    (∀ s v, matchSkill [calcSkill] "calc add numbers" (.error "boom") = some (s, v) →
      3/10 ≤ v ∧
        (∃ j, (scoredList [calcSkill] "calc add numbers" (.error "boom")).get? j = some (s, v)) ∧
        ∀ j c, (scoredList [calcSkill] "calc add numbers" (.error "boom")).get? j = some c →
          c.2 ≤ v)) :=
  ⟨by decide,
   matchSkill_weighted_max_threshold [calcSkill] "calc add numbers" (.error "boom") (by decide)⟩


/-- C4: the winner returned by `match_skill` is the FIRST candidate (in
registration / discovery order) attaining the maximal combined score:
every earlier candidate scores strictly less, so equal-scored maximal
candidates are resolved in favour of the earlier-registered one.  Being a
function of its inputs, the selection is deterministic. -/
theorem matchSkill_tiebreak_first (skills : List Skill) (msg : String)
    (reply : Except String String) (s : Skill) (v : ℚ)
    (h : matchSkill skills msg reply = some (s, v)) :
    ∃ i, (scoredList skills msg reply).get? i = some (s, v) ∧
      (∀ j c, (scoredList skills msg reply).get? j = some c → c.2 ≤ v) ∧
      (∀ j c, j < i → (scoredList skills msg reply).get? j = some c → c.2 < v) := by
  have hne : skills ≠ [] := by
    intro hnil
    rw [hnil] at h
    simp [matchSkill] at h
  obtain ⟨i, b, hget, hpick, hmax, hstrict⟩ :=
    pickBest_spec (scoredList skills msg reply) (scoredList_ne_nil skills msg reply hne)
  have hred := matchSkill_eq_of_pickBest skills msg reply hne b hpick
  rw [hred] at h
  by_cases hb : b.2 < 3/10
  · rw [if_pos hb] at h; cases h
  · rw [if_neg hb] at h
    have hbv : b = (s, v) := Option.some.inj h
    subst hbv
    exact ⟨i, hget, hmax, hstrict⟩

/-- Witness for C4 at a concrete tie: two identical skills both score
0.36; the returned winner sits at index 0 and every candidate scores at
most 0.36. -/
theorem matchSkill_tiebreak_first_witness :
    (matchSkill [calcSkill, calcSkill] "calc add numbers" (.error "boom")
        = some (calcSkill, 9/25)) ∧
    (∃ i, (scoredList [calcSkill, calcSkill] "calc add numbers" (.error "boom")).get? i
          = some (calcSkill, 9/25) ∧
      (∀ j c,
        (scoredList [calcSkill, calcSkill] "calc add numbers" (.error "boom")).get? j = some c →
          c.2 ≤ 9/25) ∧
      (∀ j c, j < i →
        (scoredList [calcSkill, calcSkill] "calc add numbers" (.error "boom")).get? j = some c →
          c.2 < 9/25)) :=
  ⟨by decide,
   matchSkill_tiebreak_first [calcSkill, calcSkill] "calc add numbers" (.error "boom")
     calcSkill (9/25) (by decide)⟩

/-- C10: with an empty registry `match_skill` returns `None` immediately,
for every message and every outcome of the external call — and the
model-assisted scorer (the only site issuing an external call) is never
reached, as it is invoked exactly when the registry is non-empty. -/
theorem matchSkill_empty_registry (msg : String) (reply : Except String String) :
    matchSkill [] msg reply = none ∧ matchSkillIssuesModelCall [] = false := by
  exact ⟨rfl, rfl⟩

/-- C3: whenever the model-assisted call fails in transport, or its reply
is non-numeric, or it parses to an out-of-range ordinal, every candidate's
model-assisted score is 0.0 and every combined score is exactly
`0.4 * lexical` — `match_skill` still returns normally (the modelled
scorer is total; the source catches the exception inside
`_match_by_semantic`), so no error reaches the caller. -/
theorem semantic_failure_degrades_to_lexical (skills : List Skill) (msg : String)
    (reply : Except String String)
    (h : (∃ e, reply = .error e) ∨
         (∃ r, reply = .ok r ∧ pyParseInt (pyStrip r) = none) ∨
         (∃ r k, reply = .ok r ∧ pyParseInt (pyStrip r) = some k ∧ k ≠ 0 ∧
           ¬(1 ≤ k ∧ k ≤ (skills.length : Int)))) :
    (∀ i, semanticScores skills.length reply i = 0) ∧
    (∀ j c, (scoredList skills msg reply).get? j = some c →
      c.2 = lexicalScore msg c.1 * (2/5)) := by
  have hsem : ∀ i, semanticScores skills.length reply i = 0 := by
    intro i
    rcases h with ⟨e, rfl⟩ | ⟨r, rfl, hparse⟩ | ⟨r, k, rfl, hparse, hk0, hkrange⟩
    · rfl
    · simp [semanticScores, hparse]
    · simp [semanticScores, hparse, hk0, hkrange]
  refine ⟨hsem, ?_⟩
  intro j c hj
  rw [scoredList_get? skills msg reply j] at hj
  match hs : skills.get? j with
  | some s =>
    rw [hs] at hj
    simp only [Option.map_some'] at hj
    rw [← Option.some.inj hj]
    simp [hsem j]
  | none => rw [hs] at hj; simp at hj

/-- Witness for C3: transport failure on a one-skill registry; the skill's
combined score equals 0.4 times its lexical score. -/
theorem semantic_failure_degrades_to_lexical_witness :
    ((∃ e, (Except.error "boom" : Except String String) = .error e) ∨
     (∃ r, (Except.error "boom" : Except String String) = .ok r ∧ pyParseInt (pyStrip r) = none) ∨
     (∃ r k, (Except.error "boom" : Except String String) = .ok r ∧
       pyParseInt (pyStrip r) = some k ∧ k ≠ 0 ∧
       ¬(1 ≤ k ∧ k ≤ ([calcSkill].length : Int)))) ∧
    ((∀ i, semanticScores [calcSkill].length (.error "boom") i = 0) ∧
     (∀ j c, (scoredList [calcSkill] "calc add numbers" (.error "boom")).get? j = some c →
       c.2 = lexicalScore "calc add numbers" c.1 * (2/5))) :=
  ⟨Or.inl ⟨"boom", rfl⟩,
   semantic_failure_degrades_to_lexical [calcSkill] "calc add numbers" (.error "boom")
     (Or.inl ⟨"boom", rfl⟩)⟩


/-- C2 counterexample: for the skill named `calc` whose description and
SKILL.md content are both `math`, and the message `do math`, the keyword
`math` is extracted from BOTH sources, so the source counts it twice
(lexical score `min(2*0.2, 0.5) = 0.4`) while the claim's distinct count
gives `min(1*0.2, 0.5) = 0.2`. -/
theorem lexicalScore_not_distinct_counterexample :
    lexicalScore "do math" mathSkill = 2/5 ∧
    specLexicalScoreDistinct "do math" mathSkill = 1/5 ∧
    lexicalScore "do math" mathSkill ≠ specLexicalScoreDistinct "do math" mathSkill := by
  refine ⟨by decide, by decide, by decide⟩

/-- C2 amended: the lexical score is exactly the claimed formula — +0.5
for a case-insensitive name substring plus `min(matched * 0.2, 0.5)`
clamped to 1.0 — except that `matched` counts keywords once per extraction
source (description and full SKILL.md text are deduplicated separately and
then concatenated), so a keyword extracted from both counts twice.  The
claim's examples survive: a name match alone gives 0.5, a name match plus
three counted keyword hits gives 1.0. -/
theorem lexicalScore_per_source_formula (msg : String) (sk : Skill) :
    lexicalScore msg sk = specLexicalScorePerSource msg sk := by
  simp only [lexicalScore, specLexicalScorePerSource]
  rcases Nat.eq_zero_or_pos
      ((List.filter (fun kw => strContains (pyLower msg) kw)
        (extractKeywords sk.description ++ extractKeywords sk.fullContent)).length)
    with h | h
  · rw [h]
    norm_num
  · rw [if_pos h]


/-- C7 counterexample: a `references` subdirectory holding a single
non-Markdown document `notes.txt` — `_load_references` globs only
`**/*.md`, so the document is not stored, against the claim that every
document found is stored. -/
theorem loadReferences_md_only_counterexample :
    loadReferences [⟨["notes.txt"], "hello"⟩] = [] ∧
    specLoadAllReferences [⟨["notes.txt"], "hello"⟩] = [("notes.txt", "hello")] ∧
    loadReferences [⟨["notes.txt"], "hello"⟩]
      ≠ specLoadAllReferences [⟨["notes.txt"], "hello"⟩] := by
  refine ⟨by decide, by decide, by decide⟩

/-- C7 amended: discovery walks the `references` subdirectory recursively
and stores exactly the Markdown (`*.md`) documents found, each keyed by its
path relative to that subdirectory with content unchanged; non-`.md`
documents are not stored. -/
theorem loadReferences_md_documents (files : List RefFile) :
    loadReferences files = specLoadAllReferences (files.filter isMdFile) ∧
    (∀ p c, (p, c) ∈ loadReferences files ↔
      ∃ f ∈ files, isMdFile f = true ∧
        p = String.intercalate "/" f.path ∧ c = f.content) := by
  constructor
  · rfl
  · intro p c
    constructor
    · intro hmem
      unfold loadReferences at hmem
      rw [List.mem_map] at hmem
      obtain ⟨f, hf, heq⟩ := hmem
      rw [List.mem_filter] at hf
      exact ⟨f, hf.1, hf.2, congrArg Prod.fst heq.symm, congrArg Prod.snd heq.symm⟩
    · intro hex
      obtain ⟨f, hf, hmd, hp, hc⟩ := hex
      unfold loadReferences
      rw [List.mem_map]
      exact ⟨f, List.mem_filter.mpr ⟨hf, hmd⟩, by rw [← hp, ← hc]⟩

/-- C8 counterexample: with one previously-registered skill `a` and a new
tree discovering only skill `b`, the table states observable during
`reload()` include the cleared (empty) table, which is neither the
pre-reload table nor the post-reload table — `reload` mutates in place
(`clear` then incremental inserts) rather than copy-and-swap. -/
theorem reload_not_atomic_counterexample :
    ¬ (∀ t ∈ reloadStates [("a", calcSkill)] [⟨"b", "d", ""⟩],
        t = [("a", calcSkill)] ∨ t = loadAll [⟨"b", "d", ""⟩]) := by
  intro h
  have hmem : ([] : List (String × Skill)) ∈
      reloadStates [("a", calcSkill)] [⟨"b", "d", ""⟩] := by decide
  rcases h [] hmem with h1 | h1 <;> simp [loadAll, dictInsert] at h1

/-- C8 amended: `reload()` clears the table in place and repopulates it
one discovered skill at a time: the observable intermediate tables are the
pre-reload table and the loads of each prefix of the new discovery list
(starting with the empty table), and the final state is exactly the full
new table. -/
theorem reload_states_are_prefix_loads (pre : List (String × Skill))
    (disc : List Skill) :
    (reloadStates pre disc).head? = some pre ∧
    (reloadStates pre disc).getLast? = some (loadAll disc) ∧
    (∀ t ∈ reloadStates pre disc,
      t = pre ∨ ∃ i, i ≤ disc.length ∧ t = loadAll (disc.take i)) := by
  refine ⟨rfl, ?_, ?_⟩
  · have hsplit : reloadStates pre disc =
        (pre :: (List.range disc.length).map (fun i => loadAll (disc.take i)))
          ++ [loadAll disc] := by
      unfold reloadStates
      rw [List.range_succ, List.map_append]
      simp [List.take_length]
    rw [hsplit, List.getLast?_concat]
  · intro t ht
    unfold reloadStates at ht
    rcases List.mem_cons.mp ht with h | h
    · exact Or.inl h
    · right
      rw [List.mem_map] at h
      obtain ⟨i, hi, rfl⟩ := h
      rw [List.mem_range] at hi
      exact ⟨i, by omega, rfl⟩


lemma calc_content_ne_empty (a b : String) : a ++ " = " ++ b ≠ "" := by
  intro h
  have h2 := congrArg String.length h
  rw [String.length_append, String.length_append] at h2
  have h3 : (" = " : String).length = 3 := rfl
  rw [h3] at h2
  simp only [String.length_empty] at h2
  omega

lemma calculatorExecute_shape (extract : String → String)
    (evalExpr : String → Except String String) (ctx : SkillContext) :
    (∃ err, calculatorExecute extract evalExpr ctx = ⟨false, "", none, some err⟩) ∨
    (∃ expr res, expr ≠ "" ∧ calculatorExecute extract evalExpr ctx =
      ⟨true, expr ++ " = " ++ res,
        some [("skill_name", "calculator"), ("expression", expr), ("result", res)],
        none⟩) := by
  simp only [calculatorExecute]
  by_cases h1 : extract (pyStrip ctx.userMessage) = ""
  · rw [if_pos h1]
    exact Or.inl ⟨_, rfl⟩
  · rw [if_neg h1]
    by_cases h2 : (!isValidExpression (extract (pyStrip ctx.userMessage))) = true
    · rw [if_pos h2]
      exact Or.inl ⟨_, rfl⟩
    · rw [if_neg h2]
      rcases hev : evalExpr (extract (pyStrip ctx.userMessage)) with e | res
      · exact Or.inl ⟨_, rfl⟩
      · exact Or.inr ⟨_, res, h1, rfl⟩

/-- C9 counterexample: the generic adapter wraps the model reply as a
success verbatim, so an empty reply yields a success whose content is
empty — the claimed "success implies non-empty content" fails. -/
theorem dynamicExecute_empty_success_counterexample :
    (dynamicExecute "calculator" (.ok "")).success = true ∧
    (dynamicExecute "calculator" (.ok "")).content = "" ∧
    ¬ resultDichotomy (dynamicExecute "calculator" (.ok "")) := by
  refine ⟨rfl, rfl, ?_⟩
  intro h
  have h2 := h.1 rfl
  exact h2.1 rfl

/-- C9 amended: for every result either handler produces, the success flag
determines the error side exactly — success implies no error, failure
implies empty content and a populated error — and the calculator's success
content is additionally always non-empty; the generic adapter's success
content equals the model reply verbatim, which may be empty. -/
theorem execute_result_dichotomy (extract : String → String)
    (evalExpr : String → Except String String) (ctx : SkillContext)
    (skillName : String) (modelCall : Except String String) :
    resultDichotomyAmended (calculatorExecute extract evalExpr ctx) ∧
    ((calculatorExecute extract evalExpr ctx).success = true →
      (calculatorExecute extract evalExpr ctx).content ≠ "") ∧
    resultDichotomyAmended (dynamicExecute skillName modelCall) := by
  refine ⟨?_, ?_, ?_⟩
  · rcases calculatorExecute_shape extract evalExpr ctx with ⟨err, heq⟩ | ⟨e, r, hne, heq⟩
    · unfold resultDichotomyAmended
      rw [heq]
      exact ⟨fun h => (by cases h), fun _ => ⟨rfl, by simp⟩⟩
    · unfold resultDichotomyAmended
      rw [heq]
      exact ⟨fun _ => rfl, fun h => (by cases h)⟩
  · rcases calculatorExecute_shape extract evalExpr ctx with ⟨err, heq⟩ | ⟨e, r, hne, heq⟩
    · rw [heq]
      intro h
      cases h
    · rw [heq]
      intro _
      exact calc_content_ne_empty e r
  · unfold resultDichotomyAmended
    rcases modelCall with e | content
    · exact ⟨fun h => (by cases h), fun _ => ⟨rfl, by simp [dynamicExecute]⟩⟩
    · exact ⟨fun _ => rfl, fun h => (by cases h)⟩


lemma mem_streamFragments (chunks : List (Option String)) (f : Fragment)
    (h : f ∈ streamFragments chunks) : ∃ s, f = Fragment.chunk s := by
  unfold streamFragments at h
  rw [List.mem_filterMap] at h
  obtain ⟨c, _, hc⟩ := h
  rcases c with _ | s
  · simp [deltaFragment] at hc
  · by_cases hs : s = ""
    · simp [deltaFragment, hs] at hc
    · simp only [deltaFragment] at hc
      rw [if_neg hs] at hc
      exact ⟨s, (Option.some.inj hc).symm⟩

/-- C6: when skill routing is disabled or the last user message is empty
or whitespace-only, the orchestrator emits exactly the generic-chat
sequence — the thinking fragment followed by the non-empty streamed model
deltas in arrival order — terminating normally, with no analyzing fragment
(and hence no skill matching: the output does not depend on the registry,
the matcher reply, or the handlers). -/
theorem generate_generic_path (enableSkills : Bool)
    (messages : List (String × String)) (skills : List Skill)
    (reply : Except String String)
    (execute : Skill → SkillContext → Except String SkillResult)
    (chunks : List (Option String))
    (h : enableSkills = false ∨ pyStrip (lastUserMessage messages) = "") :
    generate enableSkills messages skills reply execute chunks
      = (Fragment.thinking :: streamFragments chunks, none) ∧
    Fragment.analyzing ∉ (generate enableSkills messages skills reply execute chunks).1 := by
  have hcond : (enableSkills && !(pyStrip (lastUserMessage messages) == "")) = false := by
    rcases h with h | h
    · rw [h]
      rfl
    · rw [h]
      simp
  have hgen : generate enableSkills messages skills reply execute chunks
      = (Fragment.thinking :: streamFragments chunks, none) := by
    simp only [generate]
    rw [hcond]
    simp
  refine ⟨hgen, ?_⟩
  rw [hgen]
  intro hmem
  rcases List.mem_cons.mp hmem with h1 | h1
  · cases h1
  · obtain ⟨s, hs⟩ := mem_streamFragments chunks _ h1
    cases hs

/-- Witness for C6: routing enabled but the last message whitespace-only;
the output is the thinking fragment plus the stream deltas. -/
theorem generate_generic_path_witness :
    (true = false ∨ pyStrip (lastUserMessage [("user", "   ")]) = "") ∧
    (generate true [("user", "   ")] [calcSkill] (.ok "1")
        (fun _ _ => .error "boom") [some "hi"]
      = (Fragment.thinking :: streamFragments [some "hi"], none) ∧
    Fragment.analyzing ∉ (generate true [("user", "   ")] [calcSkill] (.ok "1")
        (fun _ _ => .error "boom") [some "hi"]).1) :=
  ⟨Or.inr (by decide),
   generate_generic_path true [("user", "   ")] [calcSkill] (.ok "1")
     (fun _ _ => .error "boom") [some "hi"] (Or.inr (by decide))⟩

/-- The handler used in the C5 counterexample: its `execute` coroutine
raises (unlike the repository's calculator and generic adapter, whose
bodies catch their own exceptions). -/
def raisingExecute : Skill → SkillContext → Except String SkillResult :=
  fun _ _ => .error "boom"

/-- C5 counterexample: a matched skill whose bound handler's `execute`
raises.  The orchestrator has no try/except around
`await skill.execute(context)`, so the exception terminates the fragment
sequence (second component `some "boom"`) and no failed fragment is
emitted — refuting the claim that the call site catches the exception and
converts it into a failed fragment. -/
theorem generate_uncaught_exception_counterexample :
    (generate true [("user", "calc add numbers")] [calcSkill] (.ok "1")
      raisingExecute []).2 = some "boom" ∧
    ∀ f ∈ (generate true [("user", "calc add numbers")] [calcSkill] (.ok "1")
      raisingExecute []).1, isFailedFragment f = false := by
  refine ⟨by decide, by decide⟩

lemma generate_matched_eq (messages : List (String × String))
    (skills : List Skill) (reply : Except String String)
    (execute : Skill → SkillContext → Except String SkillResult)
    (chunks : List (Option String)) (skill : Skill) (confidence : ℚ)
    (hne : pyStrip (lastUserMessage messages) ≠ "")
    (hmatch : matchSkill skills (lastUserMessage messages) reply
      = some (skill, confidence)) :
    generate true messages skills reply execute chunks =
      executeStage skill confidence
        (execute skill ⟨lastUserMessage messages, messages⟩) := by
  have hcond : (true && !(pyStrip (lastUserMessage messages) == "")) = true := by
    simp [hne]
  simp only [generate]
  rw [hcond]
  simp only [if_true]
  rw [hmatch]

/-- C5 amended: the orchestrator does not catch exceptions at the
`execute` call site.  A handler that RETURNS a failure SkillResult (as the
repository's handlers do, catching their internal exceptions inside
`execute`) is reported as a failed fragment and the sequence terminates
normally; but an exception escaping `execute` terminates the fragment
sequence itself, right after the executing fragment, with no failed
fragment. -/
theorem generate_execute_outcomes (messages : List (String × String))
    (skills : List Skill) (reply : Except String String)
    (execute : Skill → SkillContext → Except String SkillResult)
    (chunks : List (Option String)) (skill : Skill) (confidence : ℚ)
    (hne : pyStrip (lastUserMessage messages) ≠ "")
    (hmatch : matchSkill skills (lastUserMessage messages) reply
      = some (skill, confidence)) :
    (∀ r, execute skill ⟨lastUserMessage messages, messages⟩ = .ok r →
      r.success = false →
      generate true messages skills reply execute chunks =
        ([Fragment.analyzing, Fragment.matched skill.name confidence,
          Fragment.executing skill.name, Fragment.failed r.error], none)) ∧
    (∀ e, execute skill ⟨lastUserMessage messages, messages⟩ = .error e →
      generate true messages skills reply execute chunks =
        ([Fragment.analyzing, Fragment.matched skill.name confidence,
          Fragment.executing skill.name], some e)) := by
  have hbase := generate_matched_eq messages skills reply execute chunks
    skill confidence hne hmatch
  constructor
  · intro r hr hfail
    rw [hbase, hr]
    simp only [executeStage]
    rw [hfail]
    simp
  · intro e he
    rw [hbase, he]
    rfl

/-- Witness for the amended C5 at a concrete input: the matched `calc`
skill with a raising handler; the theorem applies and its second conjunct
yields the terminated sequence. -/
theorem generate_execute_outcomes_witness :
    (pyStrip (lastUserMessage [("user", "calc add numbers")]) ≠ "") ∧
    (matchSkill [calcSkill] (lastUserMessage [("user", "calc add numbers")]) (.ok "1")
      = some (calcSkill, 9/10)) ∧
    ((∀ r, raisingExecute calcSkill
        ⟨lastUserMessage [("user", "calc add numbers")], [("user", "calc add numbers")]⟩
          = .ok r →
      r.success = false →
      generate true [("user", "calc add numbers")] [calcSkill] (.ok "1")
          raisingExecute [] =
        ([Fragment.analyzing, Fragment.matched calcSkill.name (9/10),
          Fragment.executing calcSkill.name, Fragment.failed r.error], none)) ∧
    (∀ e, raisingExecute calcSkill
        ⟨lastUserMessage [("user", "calc add numbers")], [("user", "calc add numbers")]⟩
          = .error e →
      generate true [("user", "calc add numbers")] [calcSkill] (.ok "1")
          raisingExecute [] =
        ([Fragment.analyzing, Fragment.matched calcSkill.name (9/10),
          Fragment.executing calcSkill.name], some e))) :=
  ⟨by decide, by decide,
   generate_execute_outcomes [("user", "calc add numbers")] [calcSkill] (.ok "1")
     raisingExecute [] calcSkill (9/10) (by decide) (by decide)⟩


end FastapiSkills
